import Mathlib

/-!
Shallow embedding of the legal-document analysis pipeline implemented by the
`LegalDocumentSimplifier` class of `web.py`. Python strings are modelled as
`List Char`; Python dicts that are iterated in insertion order are modelled as
insertion-ordered association lists. External library calls (PyPDF2, python-docx,
UTF-8 decoding, `textwrap.shorten`) have no source in the repository and are
modelled as stated in their doc comments.
-/

/-- Python strings, modelled as lists of characters. -/
abbrev Str : Type := List Char

/-- The character list of a Lean string literal, used to transcribe Python string literals. -/
def str (s : String) : Str := s.data

/-- Python `str.lower()` (the pipeline only relies on its action on ASCII letters). -/
def toLowerS (s : Str) : Str := s.map Char.toLower

/-- Python `str.upper()` (the pipeline only relies on its action on ASCII letters). -/
def toUpperS (s : Str) : Str := s.map Char.toUpper

/-- Python substring test `needle in hay`. -/
def containsS (hay needle : Str) : Bool := hay.tails.any (fun t => needle.isPrefixOf t)

/-- Python `str.strip()`: remove leading and trailing whitespace. -/
def strip (s : Str) : Str := (s.dropWhile Char.isWhitespace).rdropWhile Char.isWhitespace

/-- Python `str.split()` with no argument: whitespace-delimited tokens, empties discarded. -/
def pySplitWs (s : Str) : List Str := (s.splitOnP Char.isWhitespace).filter (fun w => !w.isEmpty)

/-- `identify_document_type` (web.py, lines 192-209): lowercase the text once, then test a
fixed ordered list of keyword sets; the first set with a member occurring as a substring
wins, with "Legal Document" as the fallback. -/
def identify_document_type (text : Str) : Str :=
  let lo := toLowerS text
  if [str "lease", str "rental", str "tenant", str "landlord"].any (containsS lo) then
    str "Rental Agreement"
  else if [str "loan", str "borrower", str "lender", str "interest rate",
      str "repayment"].any (containsS lo) then
    str "Loan Agreement"
  else if [str "terms of service", str "terms and conditions",
      str "user agreement"].any (containsS lo) then
    str "Terms of Service"
  else if [str "employment", str "employee", str "employer",
      str "non-compete"].any (containsS lo) then
    str "Employment Contract"
  else if [str "nda", str "non-disclosure", str "confidentiality"].any (containsS lo) then
    str "Non-Disclosure Agreement"
  else if [str "purchase", str "sale", str "buyer", str "seller"].any (containsS lo) then
    str "Purchase Agreement"
  else
    str "Legal Document"

/-- The fixed section-heading vocabulary of `identify_key_sections` (web.py, lines 219-224). -/
def section_headings : List Str :=
  [str "parties", str "recitals", str "terms", str "definitions", str "obligations",
   str "payment", str "confidentiality", str "term and termination", str "warranties",
   str "limitation of liability", str "indemnification", str "governing law",
   str "dispute resolution", str "miscellaneous", str "notices", str "signatures"]

/-- The heading test of `identify_key_sections` (web.py, lines 234-239), applied to an
already stripped line: some vocabulary keyword occurs in the lowercased line and the line
has fewer than 8 whitespace-delimited tokens. -/
def isHeading (ls : Str) : Bool :=
  section_headings.any (fun h => containsS (toLowerS ls) h && decide ((pySplitWs ls).length < 8))

/-- Python dict assignment `d[k] = v` on an insertion-ordered association list: an existing
key keeps its position and gets the new value, a new key is appended. -/
def dictInsert (m : List (Str × Str)) (k : Str) (v : Str) : List (Str × Str) :=
  if m.any (fun kv => kv.1 == k) then
    m.map (fun kv => if kv.1 == k then (kv.1, v) else kv)
  else
    m ++ [(k, v)]

/-- The line loop of `identify_key_sections` (web.py, lines 226-250): state is the current
section name, the buffered body lines, and the sections dict built so far. Blank lines are
skipped; a heading flushes the non-empty buffer under the current name and becomes the new
current name; other lines are buffered in stripped form. -/
def segGo (cur : Str) (buf : List Str) (secs : List (Str × Str)) :
    List Str → List (Str × Str)
  | [] =>
    if !buf.isEmpty && !cur.isEmpty then dictInsert secs cur (List.intercalate ['\n'] buf)
    else secs
  | line :: rest =>
    if (strip line).isEmpty then segGo cur buf secs rest
    else if isHeading (strip line) then
      segGo (strip line) []
        (if !buf.isEmpty && !cur.isEmpty then dictInsert secs cur (List.intercalate ['\n'] buf)
         else secs) rest
    else segGo cur (buf ++ [strip line]) secs rest

/-- `identify_key_sections` (web.py, lines 211-252). -/
def identify_key_sections (text : Str) : List (Str × Str) :=
  segGo (str "Introduction") [] [] (text.splitOn '\n')

/-- The body lines stored in a SectionMap: each stored section body split back into the
lines it was joined from. -/
def bodyLines (m : List (Str × Str)) : List Str :=
  (m.map (fun kv => kv.2.splitOn '\n')).flatten

/-- The stripped non-blank, non-heading lines of a line list, in order. -/
def contentLines (lines : List Str) : List Str :=
  (lines.map strip).filter (fun l => !l.isEmpty && !isHeading l)

/-- The stripped lines of a line list that the segmenter detects as headings, in order. -/
def headingLines (lines : List Str) : List Str :=
  (lines.map strip).filter isHeading

/-- The `legal_terms` jargon table (web.py, lines 129-150), in dict insertion order. -/
def legal_terms : List (Str × Str) :=
  [(str "hereinafter", str "from now on"),
   (str "heretofore", str "until now"),
   (str "wherein", str "in which"),
   (str "whereby", str "by which"),
   (str "hereby", str "by this"),
   (str "herein", str "in this document"),
   (str "hereof", str "of this"),
   (str "hereto", str "to this"),
   (str "pursuant to", str "according to"),
   (str "notwithstanding", str "despite"),
   (str "indemnify", str "compensate for harm or loss"),
   (str "liable", str "legally responsible"),
   (str "obligation", str "duty"),
   (str "covenant", str "formal agreement"),
   (str "warranty", str "promise or guarantee"),
   (str "jurisdiction", str "area of legal authority"),
   (str "arbitration", str "resolving disputes outside of court"),
   (str "litigation", str "taking legal action through court"),
   (str "force majeure", str "unavoidable circumstances"),
   (str "confidentiality", str "keeping information private")]

/-- The regex word character class `\w` on the ASCII fragment the pipeline operates on. -/
def isWordChar (c : Char) : Bool := c.isAlphanum || c == '_'

/-- Whether a word boundary may sit next to the given neighbouring character
(none at a string edge). -/
def boundaryOk : Option Char → Bool
  | none => true
  | some c => !isWordChar c

/-- One pass of Python `re.sub(rf'\b{T}\b', repl, s, flags=re.IGNORECASE)` for a pattern
whose body `T` is a literal lowercase word or phrase (every entry of `legal_terms` is one):
scan left to right, replacing each case-insensitive occurrence of the term that has word
boundaries on both sides, and resume after the matched region; `prev` is the character of
the original string just before the scan position. Every scan step consumes at least one
character; the structural `fuel` argument is initialised to the string length by `subWord`
and is therefore never exhausted. -/
def subWordGo (term repl : Str) : Nat → Option Char → Str → Str
  | 0, _, s => s
  | _ + 1, _, [] => []
  | fuel + 1, prev, c :: rest =>
    if !term.isEmpty && (toLowerS ((c :: rest).take term.length) == term)
        && boundaryOk prev && boundaryOk ((c :: rest).drop term.length).head? then
      repl ++ subWordGo term repl fuel (some (((c :: rest).take term.length).getLastD c))
        ((c :: rest).drop term.length)
    else
      c :: subWordGo term repl fuel (some c) rest

/-- Python `re.sub(rf'\b{T}\b', repl, s, flags=re.IGNORECASE)` for a literal term:
the scan of `subWordGo` started at the beginning of the string. -/
def subWord (term repl s : Str) : Str := subWordGo term repl s.length none s

/-- The annotated replacement `f'<span class="legal-term">{term}</span> ({explanation})'`
(web.py, line 264). -/
def annotTerm (term expl : Str) : Str :=
  str "<span class=\"legal-term\">" ++ term ++ str "</span> (" ++ expl ++ str ")"

/-- The boilerplate `patterns` table of `simplify_legal_text` (web.py, lines 270-281);
every pattern is a literal lowercase phrase. -/
def simplify_patterns : List (Str × Str) :=
  [(str "notwithstanding anything to the contrary contained herein",
    str "despite anything else in this document"),
   (str "in the event that", str "if"),
   (str "for the purpose of", str "to"),
   (str "prior to", str "before"),
   (str "subsequent to", str "after"),
   (str "pursuant to", str "under"),
   (str "without limiting the generality of the foregoing",
    str "including but not limited to"),
   (str "set forth herein", str "described in this document"),
   (str "shall be deemed to be", str "will be considered"),
   (str "is hereby granted", str "is given")]

/-- One pass of Python `re.sub(pat, repl, s, flags=re.IGNORECASE)` for a literal lowercase
pattern with no boundary assertions: scan left to right, replacing each case-insensitive
occurrence and resuming after it. Every scan step consumes at least one character; the
structural `fuel` argument is initialised to the string length by `subLit` and is
therefore never exhausted. -/
def subLitGo (pat repl : Str) : Nat → Str → Str
  | 0, s => s
  | _ + 1, [] => []
  | fuel + 1, c :: rest =>
    if !pat.isEmpty && (toLowerS ((c :: rest).take pat.length) == pat) then
      repl ++ subLitGo pat repl fuel ((c :: rest).drop pat.length)
    else
      c :: subLitGo pat repl fuel rest

/-- Python `re.sub(pat, repl, s, flags=re.IGNORECASE)` for a literal pattern: the scan of
`subLitGo` started at the beginning of the string. -/
def subLit (pat repl s : Str) : Str := subLitGo pat repl s.length s

/-- Python `re.split(r'(?<=[.!?]) +', text)` (web.py, lines 287 and 335): a sentence
boundary is a maximal run of spaces whose preceding character is `.`, `!` or `?`; the
whole run is consumed, and `prev` tracks the character of the original string just
before the scan position. Every scan step consumes at least one character; the
structural `fuel` argument is initialised to the string length by `pySentSplit` and is
therefore never exhausted. -/
def sentGo : Nat → Option Char → Str → Str → List Str
  | 0, _, acc, s => [acc ++ s]
  | _ + 1, _, acc, [] => [acc]
  | fuel + 1, prev, acc, c :: rest =>
    if c == ' ' && (prev == some '.' || prev == some '!' || prev == some '?') then
      acc :: sentGo fuel (some ' ') [] (rest.dropWhile (fun d => d == ' '))
    else
      sentGo fuel (some c) (acc ++ [c]) rest

/-- Python `re.split(r'(?<=[.!?]) +', text)`: the scan of `sentGo` started at the
beginning of the string. -/
def pySentSplit (s : Str) : List Str := sentGo s.length none [] s

/-- Python `re.split(r', |; |: ', sentence)` (web.py, line 293): split on a comma,
semicolon or colon immediately followed by a single space, both characters consumed. -/
def clauseGo (acc : Str) : Str → List Str
  | [] => [acc]
  | [c] => [acc ++ [c]]
  | c :: d :: rest =>
    if (c == ',' || c == ';' || c == ':') && d == ' ' then
      acc :: clauseGo [] rest
    else
      clauseGo (acc ++ [c]) (d :: rest)

/-- `simplify_legal_text` (web.py, lines 254-301): return `""` for blank input; otherwise
annotate every jargon term, apply the boilerplate substitutions, split into sentences,
break sentences of more than 25 tokens at comma/semicolon/colon boundaries when possible,
and rejoin everything with `". "`. -/
def simplify_legal_text (text : Str) : Str :=
  if (strip text).isEmpty then []
  else
    let s1 := legal_terms.foldl (fun acc te => subWord te.1 (annotTerm te.1 te.2) acc) text
    let s2 := simplify_patterns.foldl (fun acc pr => subLit pr.1 pr.2 acc) s1
    let sentences := pySentSplit s2
    let simplified := (sentences.map (fun sent =>
      if 25 < (pySplitWs sent).length then
        let clauses := clauseGo [] sent
        if 1 < clauses.length then clauses else [sent]
      else [sent])).flatten
    List.intercalate (str ". ") simplified

/-- A risk pattern is an alternation of chains of literal atoms separated by `.*` gaps;
this is the exact shape of every regex in the `risk_patterns` table. -/
abbrev RPat : Type := List (List Str)

/-- Matching of a chain of atoms that may be preceded by a `.*` gap: either the first atom
starts here, or we may extend the gap by one character, which must not be a newline
(Python `.` does not match `\n`). Every recursive call drops an atom or consumes a
character, so the structural `fuel` argument, initialised to the atom count plus the
string length by `midChain`, is never exhausted. -/
def midChainGo : Nat → List Str → Str → Bool
  | 0, ch, _ => ch.isEmpty
  | _ + 1, [], _ => true
  | fuel + 1, a :: rest, s =>
    (a.isPrefixOf s && midChainGo fuel rest (s.drop a.length)) ||
      (match s with
       | [] => false
       | c :: tl => !(c == '\n') && midChainGo fuel (a :: rest) tl)

/-- Matching of a chain of atoms after a possible `.*` gap: see `midChainGo`. -/
def midChain (ch : List Str) (s : Str) : Bool := midChainGo (ch.length + s.length) ch s

/-- Matching of a chain of atoms anchored at the start of the string: the first atom must
start here, later atoms follow after newline-free gaps. -/
def chainAt : List Str → Str → Bool
  | [], _ => true
  | a :: rest, s => a.isPrefixOf s && midChain rest (s.drop a.length)

/-- Python `re.search` of one alternation branch: the chain may start anywhere. -/
def searchChain (ch : List Str) (s : Str) : Bool := s.tails.any (chainAt ch)

/-- Python `re.search(pattern, s)` for a pattern in the alternation-of-chains class:
some branch matches somewhere. -/
def searchPat (p : RPat) (s : Str) : Bool := p.any (fun ch => searchChain ch s)

/-- One entry of the list built by `identify_risks` (web.py, lines 324-328). -/
structure RiskFinding where
  description : Str
  level : Str
  examples : List Str
deriving DecidableEq

/-- The `risk_patterns` table (web.py, lines 309-320), each regex transcribed as its
alternation of `.*`-separated literal chains, with its description and risk level. -/
def risk_patterns : List (RPat × Str × Str) :=
  [([[str "indemnify"], [str "hold harmless"]],
    str "You might be responsible for paying for damages or losses", str "high"),
   ([[str "liability", str "limit"], [str "limit", str "liability"]],
    str "There may be limits on how much you can claim if something goes wrong", str "medium"),
   ([[str "confidentiality"], [str "non-disclosure"]],
    str "You may be required to keep information secret", str "medium"),
   ([[str "termination", str "without cause"], [str "termination", str "at will"]],
    str "The agreement might be ended without a specific reason", str "medium"),
   ([[str "arbitration", str "dispute"], [str "dispute", str "arbitration"]],
    str "You might not be able to sue in court and must use arbitration instead", str "medium"),
   ([[str "governing law", str "jurisdiction"]],
    str "Disputes might be handled in a location that\x27s not convenient for you", str "low"),
   ([[str "automatic renewal"], [str "evergreen"]],
    str "The agreement might renew automatically unless you cancel it", str "medium"),
   ([[str "non-compete"], [str "non-solicit"]],
    str "You might be restricted from working with competitors or clients", str "high"),
   ([[str "liquidated damages"]],
    str "You might have to pay a predetermined amount if you breach the agreement", str "high"),
   ([[str "assignment", str "without consent"]],
    str "The other party might transfer the agreement without your permission", str "medium")]

/-- The sentence loop of `find_example_clauses` (web.py, lines 337-341): append the
stripped sentence when the pattern matches it case-insensitively, stopping once three
examples have been collected. -/
def fecGo (pat : RPat) : List Str → List Str → List Str
  | [], acc => acc
  | s :: rest, acc =>
    if searchPat pat (toLowerS s) then
      let acc2 := acc ++ [strip s]
      if 3 ≤ acc2.length then acc2 else fecGo pat rest acc2
    else fecGo pat rest acc

/-- `find_example_clauses` (web.py, lines 332-343). -/
def find_example_clauses (text : Str) (pat : RPat) : List Str :=
  fecGo pat (pySentSplit text) []

/-- `identify_risks` (web.py, lines 303-330): walk the rule table in order; a rule whose
pattern matches the lowercased text contributes a finding with its description, level and
example clauses. -/
def identify_risks (text : Str) : List RiskFinding :=
  risk_patterns.filterMap (fun r =>
    if searchPat r.1 (toLowerS text) then
      some ⟨r.2.1, r.2.2, find_example_clauses text r.1⟩
    else none)

/-- Modelled from the spec: `textwrap.shorten(content, width=150, placeholder='...')`
(web.py, line 350) is library code external to the repository; per the spec the section
body is "truncated to ~150 characters (ellipsis if truncated)". Whitespace runs are
collapsed; if the collapsed text exceeds 150 characters, the longest word prefix that
fits together with the placeholder is kept and `...` is appended. -/
def shortenGo : List Str → Str → Str
  | [], acc => acc ++ str "..."
  | w :: rest, acc =>
    let acc2 := if acc.isEmpty then w else acc ++ [' '] ++ w
    if acc2.length + 3 ≤ 150 then shortenGo rest acc2 else acc ++ str "..."

/-- Modelled from the spec: see `shortenGo`. -/
def shorten150 (s : Str) : Str :=
  let collapsed := List.intercalate [' '] (pySplitWs s)
  if collapsed.length ≤ 150 then collapsed else shortenGo (pySplitWs s) []

/-- The fixed checklist header emitted by `generate_summary` (web.py, line 352). -/
def checklistHeader : Str := str "\nKey things to pay attention to:\n"

/-- The rental checklist bullets of `generate_summary` (web.py, lines 354-359). -/
def rentalChecklist : Str :=
  str "- Duration of the lease and renewal terms\n- Rent amount, due date, and late fees\n- Security deposit details and return conditions\n- Maintenance responsibilities\n- Rules about pets, guests, and property use\n"

/-- The loan checklist bullets of `generate_summary` (web.py, lines 361-366). -/
def loanChecklist : Str :=
  str "- Principal amount and interest rate\n- Repayment schedule and due dates\n- Prepayment penalties or options\n- Default conditions and consequences\n- Collateral requirements if any\n"

/-- The terms-of-service checklist bullets of `generate_summary` (web.py, lines 368-373). -/
def tosChecklist : Str :=
  str "- Your rights and responsibilities as a user\n- How your data is collected and used\n- Content ownership and intellectual property\n- Limitations of the service provider\x27s liability\n- Dispute resolution process\n"

/-- The part of the `generate_summary` string built before the checklist header
(web.py, lines 347-350): the opening sentence and one bullet per section. -/
def summaryBase (document_type : Str) (sections : List (Str × Str)) : Str :=
  sections.foldl
    (fun acc kv => acc ++ str "• " ++ kv.1 ++ str ": " ++ shorten150 kv.2 ++ str "\n")
    (str "This is a " ++ document_type ++ str " that includes the following key sections:\n\n")

/-- `generate_summary` (web.py, lines 345-375): the base, then the unconditional checklist
header, then the checklist bullets of the three document types that have one. -/
def generate_summary (document_type : Str) (sections : List (Str × Str)) : Str :=
  let base := summaryBase document_type sections ++ checklistHeader
  if document_type == str "Rental Agreement" then base ++ rentalChecklist
  else if document_type == str "Loan Agreement" then base ++ loanChecklist
  else if document_type == str "Terms of Service" then base ++ tosChecklist
  else base

/-- An uploaded file: its name, and the outcome of the three external extraction routines
the dispatcher can call on it. `pdfExtract` models `extract_text_from_pdf` (PyPDF2),
`docxExtract` models `extract_text_from_docx` (python-docx) and `txtDecode` models
`str(file.read(), "utf-8")`; each either returns text or raises an exception carrying a
message, which the embedding represents as `Except`. -/
structure UploadedFile where
  name : Str
  pdfExtract : Except Str Str
  docxExtract : Except Str Str
  txtDecode : Except Str Str

/-- `extract_text_from_file` (web.py, lines 179-190): dispatch on the lowercased suffix
after the last dot of the file name; an unknown extension raises
`ValueError(f"Unsupported file type: {file_type}")`. -/
def extract_text_from_file (f : UploadedFile) : Except Str Str :=
  let ft := toLowerS ((f.name.splitOn '.').getLastD [])
  if ft == str "pdf" then f.pdfExtract
  else if ft == str "docx" then f.docxExtract
  else if ft == str "txt" then f.txtDecode
  else Except.error (str "Unsupported file type: " ++ ft)

/-- The result dict of `process_document` (web.py, lines 398-413): either the full
analysis payload, or `success: False` with only an error message. -/
inductive AnalysisResult where
  | ok (original_text simplified_text document_type : Str)
      (sections : List (Str × Str)) (risks : List RiskFinding)
      (summary : Str) (file_name : Str) : AnalysisResult
  | fail (error : Str) : AnalysisResult
deriving DecidableEq

/-- `process_document` (web.py, lines 377-413): run the pipeline on the extracted text;
any exception is caught and converted into a failure result carrying its message. -/
def process_document (f : UploadedFile) : AnalysisResult :=
  match extract_text_from_file f with
  | Except.ok text =>
    AnalysisResult.ok text (simplify_legal_text text) (identify_document_type text)
      (identify_key_sections text) (identify_risks text)
      (generate_summary (identify_document_type text) (identify_key_sections text)) f.name
  | Except.error e => AnalysisResult.fail e

/-!
### Helper lemmas
-/

theorem containsS_iff {hay needle : Str} : containsS hay needle = true ↔ needle <:+: hay := by
  simp only [containsS, List.any_eq_true, List.isPrefixOf_iff_prefix]
  constructor
  · rintro ⟨t, ht, hp⟩
    exact List.infix_iff_prefix_suffix.mpr ⟨t, hp, (List.mem_tails _ _).mp ht⟩
  · intro h
    obtain ⟨t, hp, hs⟩ := List.infix_iff_prefix_suffix.mp h
    exact ⟨t, (List.mem_tails _ _).mpr hs, hp⟩

theorem strip_within (s : Str) : strip s <:+: s :=
  ((List.rdropWhile_prefix _ _).isInfix).trans ((s.dropWhile_suffix _).isInfix)

theorem strip_eq_nil {s : Str} (h : ∀ c ∈ s, c.isWhitespace = true) : strip s = [] := by
  have h1 : s.dropWhile Char.isWhitespace = [] := List.dropWhile_eq_nil_iff.mpr h
  simp [strip, h1]

theorem mem_of_mem_strip {c : Char} {s : Str} (h : c ∈ strip s) : c ∈ s :=
  (strip_within s).sublist.mem h

theorem char_toNat_ofNat (n : Nat) (hv : n.isValidChar) : (Char.ofNat n).toNat = n := by
  rw [Char.ofNat, dif_pos hv]
  simp [Char.ofNatAux, Char.toNat, UInt32.toNat, BitVec.ofNatLt]

theorem char_toLower_toUpper (c : Char) : c.toUpper.toLower = c.toLower := by
  simp only [Char.toUpper, Char.toLower]
  split
  case isTrue h =>
    have hv : Nat.isValidChar (c.toNat - 32) := Or.inl (by omega)
    rw [char_toNat_ofNat _ hv]
    rw [if_pos (by omega : c.toNat - 32 ≥ 65 ∧ c.toNat - 32 ≤ 90)]
    rw [if_neg (by omega : ¬(c.toNat ≥ 65 ∧ c.toNat ≤ 90))]
    have h32 : c.toNat - 32 + 32 = c.toNat := by omega
    rw [h32, Char.ofNat_toNat]
  case isFalse h =>
    rfl

theorem toLowerS_toUpperS (s : Str) : toLowerS (toUpperS s) = toLowerS s := by
  simp only [toLowerS, toUpperS, List.map_map]
  exact List.map_congr_left (fun c _ => char_toLower_toUpper c)

/-!
### Claim theorems: classifier (C1, C10) and blank-input rewriter (C9)
-/

/-- C1: the classifier returns exactly one of the seven labels by testing the keyword
rules in the fixed order Rental, Loan, TermsOfService, Employment, NDA, Purchase with
"Legal Document" as fallback, and any text containing both "lease" and "loan"
case-insensitively classifies as "Rental Agreement" because the Rental rule is first. -/
theorem classifier_first_match (t : Str) :
    identify_document_type t ∈
      [str "Rental Agreement", str "Loan Agreement", str "Terms of Service",
       str "Employment Contract", str "Non-Disclosure Agreement",
       str "Purchase Agreement", str "Legal Document"] ∧
    (containsS (toLowerS t) (str "lease") = true →
      containsS (toLowerS t) (str "loan") = true →
      identify_document_type t = str "Rental Agreement") := by
  constructor
  · simp only [identify_document_type]
    split_ifs <;> simp
  · intro h1 _
    have hc : [str "lease", str "rental", str "tenant", str "landlord"].any
        (containsS (toLowerS t)) = true := by
      simp only [List.any_eq_true]
      exact ⟨str "lease", by simp, h1⟩
    simp [identify_document_type, hc]

/-- Witness for C1 at the concrete text "lease loan". -/
theorem classifier_first_match_witness :
    containsS (toLowerS (str "lease loan")) (str "lease") = true ∧
    containsS (toLowerS (str "lease loan")) (str "loan") = true ∧
    identify_document_type (str "lease loan") = str "Rental Agreement" :=
  ⟨by decide, by decide,
   (classifier_first_match (str "lease loan")).2 (by decide) (by decide)⟩

/-- C10: classification is invariant under changes of letter case: any text with the same
lowercasing classifies identically, and in particular the fully uppercased text
classifies like the original, because the classifier lowercases the text before testing
every keyword rule. -/
theorem classifier_case_invariant (t : Str) :
    (∀ u : Str, toLowerS u = toLowerS t →
      identify_document_type u = identify_document_type t) ∧
    identify_document_type (toUpperS t) = identify_document_type t := by
  have key : ∀ u : Str, toLowerS u = toLowerS t →
      identify_document_type u = identify_document_type t := by
    intro u hu
    simp only [identify_document_type, hu]
  exact ⟨key, key (toUpperS t) (toLowerS_toUpperS t)⟩

/-- Witness for C10 at the concrete texts "LEASE Agreement" and "lease agreement". -/
theorem classifier_case_invariant_witness :
    toLowerS (str "LEASE Agreement") = toLowerS (str "lease agreement") ∧
    identify_document_type (str "LEASE Agreement") =
      identify_document_type (str "lease agreement") :=
  ⟨by decide,
   (classifier_case_invariant (str "lease agreement")).1 (str "LEASE Agreement") (by decide)⟩

/-- C9: on input that is empty or all whitespace the clause rewriter returns the empty
string (the early return of `simplify_legal_text`). -/
theorem simplify_blank_empty (t : Str) (h : ∀ c ∈ t, c.isWhitespace = true) :
    simplify_legal_text t = [] := by
  have h1 : strip t = [] := strip_eq_nil h
  simp [simplify_legal_text, h1]

/-- Witness for C9 at the concrete two-space text. -/
theorem simplify_blank_empty_witness :
    (∀ c ∈ str "  ", c.isWhitespace = true) ∧ simplify_legal_text (str "  ") = [] :=
  ⟨by decide, simplify_blank_empty (str "  ") (by decide)⟩

/-!
### splitOn and sentence-splitting lemmas
-/

theorem splitOnP_pieces (p : Char → Bool) (l : Str) :
    ∀ q ∈ l.splitOnP p, ∀ c ∈ q, p c = false := by
  induction l with
  | nil =>
    intro q hq
    rw [List.splitOnP_nil] at hq
    rcases List.mem_singleton.mp hq with rfl
    intro c hc
    exact absurd hc (List.not_mem_nil c)
  | cons x t ih =>
    intro q hq
    rw [List.splitOnP_cons] at hq
    by_cases hx : p x = true
    · rw [if_pos hx] at hq
      rcases List.mem_cons.mp hq with rfl | h1
      · intro c hc
        exact absurd hc (List.not_mem_nil c)
      · exact ih q h1
    · rw [if_neg hx] at hq
      rcases ht : t.splitOnP p with _ | ⟨h0, tl⟩
      · exact absurd ht (List.splitOnP_ne_nil _ t)
      · rw [ht, List.modifyHead_cons] at hq
        rcases List.mem_cons.mp hq with rfl | h1
        · intro c hc
          rcases List.mem_cons.mp hc with rfl | h2
          · exact Bool.eq_false_iff.mpr hx
          · exact ih h0 (ht ▸ List.mem_cons_self h0 tl) c h2
        · exact ih q (ht ▸ List.mem_cons.mpr (Or.inr h1))

theorem splitOn_pieces (a : Char) (l : Str) : ∀ q ∈ l.splitOn a, a ∉ q := by
  intro q hq ha
  have h1 : ((a == a) : Bool) = false :=
    splitOnP_pieces (fun c => c == a) l q (by simpa [List.splitOn] using hq) a ha
  simp at h1

theorem splitOn_sep_free {a : Char} {l : Str} (h : a ∉ l) : l.splitOn a = [l] := by
  simp only [List.splitOn]
  exact List.splitOnP_eq_single _ _ (fun x hx hb => h (beq_iff_eq.mp hb ▸ hx))

theorem splitOn_ne_nil (a : Char) (l : Str) : l.splitOn a ≠ [] := by
  simp only [List.splitOn]
  exact List.splitOnP_ne_nil _ l

theorem modifyHead_append_left (f : Str → Str) {l : List Str} (m : List Str) (h : l ≠ []) :
    (l ++ m).modifyHead f = l.modifyHead f ++ m := by
  cases l with
  | nil => exact absurd rfl h
  | cons x t => simp

theorem splitOn_append_last {t b : Str} {a : Char} (hb : a ∉ b) :
    (t ++ a :: b).splitOn a = t.splitOn a ++ [b] := by
  induction t with
  | nil =>
    simp only [List.nil_append, List.splitOn, List.splitOnP_cons, beq_self_eq_true, if_true]
    rw [show b.splitOnP (· == a) = b.splitOn a from rfl, splitOn_sep_free hb]
    rfl
  | cons x t ih =>
    show ((x :: (t ++ a :: b)).splitOn a) = (x :: t).splitOn a ++ [b]
    simp only [List.splitOn, List.splitOnP_cons] at ih ⊢
    by_cases hx : (x == a) = true
    · rw [if_pos hx, if_pos hx, ih]
      rfl
    · rw [if_neg hx, if_neg hx, ih,
        modifyHead_append_left _ _ (List.splitOnP_ne_nil _ t)]

theorem intercalate_single (sep : Str) (x : Str) : List.intercalate sep [x] = x := by
  simp [List.intercalate]

theorem sentGo_mem_infix (fuel : Nat) :
    ∀ (prev : Option Char) (acc : Str) (s : Str),
      ∀ q ∈ sentGo fuel prev acc s, q <:+: acc ++ s := by
  induction fuel with
  | zero =>
    intro prev acc s q hq
    rw [sentGo] at hq
    rcases List.mem_singleton.mp hq with rfl
    exact List.infix_refl _
  | succ fuel ih =>
    intro prev acc s q hq
    cases s with
    | nil =>
      rw [sentGo] at hq
      rcases List.mem_singleton.mp hq with rfl
      exact (List.prefix_append q []).isInfix
    | cons c rest =>
      rw [sentGo] at hq
      by_cases hcond : (c == ' ' &&
          (prev == some '.' || prev == some '!' || prev == some '?')) = true
      · rw [if_pos hcond] at hq
        rcases List.mem_cons.mp hq with rfl | h1
        · exact (List.prefix_append q (c :: rest)).isInfix
        · have h2 := ih _ _ _ q h1
          rw [List.nil_append] at h2
          have h3 : rest.dropWhile (fun d => d == ' ') <:+ c :: rest :=
            (rest.dropWhile_suffix (fun d => d == ' ')).trans (List.suffix_cons c rest)
          exact h2.trans (h3.isInfix.trans (List.suffix_append acc (c :: rest)).isInfix)
      · rw [if_neg hcond] at hq
        have h2 := ih _ _ _ q hq
        rwa [List.append_assoc, List.singleton_append] at h2

/-!
### Risk-scanner lemmas and claim C5
-/

theorem fecGo_length (pat : RPat) :
    ∀ (ss acc : List Str), acc.length < 3 → (fecGo pat ss acc).length ≤ 3 := by
  intro ss
  induction ss with
  | nil =>
    intro acc h
    rw [fecGo]
    omega
  | cons s rest ih =>
    intro acc h
    rw [fecGo]
    by_cases hm : searchPat pat (toLowerS s) = true
    · rw [if_pos hm]
      simp only
      by_cases h3 : 3 ≤ (acc ++ [strip s]).length
      · rw [if_pos h3]
        simp only [List.length_append, List.length_singleton]
        omega
      · rw [if_neg h3]
        exact ih _ (by simp only [List.length_append, List.length_singleton] at h3 ⊢; omega)
    · rw [if_neg hm]
      exact ih acc h

theorem fecGo_mem (pat : RPat) :
    ∀ (ss acc : List Str) (e : Str), e ∈ fecGo pat ss acc →
      e ∈ acc ∨ ∃ s, s ∈ ss ∧ e = strip s := by
  intro ss
  induction ss with
  | nil =>
    intro acc e he
    rw [fecGo] at he
    exact Or.inl he
  | cons s rest ih =>
    intro acc e he
    rw [fecGo] at he
    by_cases hm : searchPat pat (toLowerS s) = true
    · rw [if_pos hm] at he
      simp only at he
      by_cases h3 : 3 ≤ (acc ++ [strip s]).length
      · rw [if_pos h3] at he
        rcases List.mem_append.mp he with h1 | h1
        · exact Or.inl h1
        · exact Or.inr ⟨s, List.mem_cons_self s rest, (List.mem_singleton.mp h1)⟩
      · rw [if_neg h3] at he
        rcases ih _ e he with h1 | ⟨s2, hs2, he2⟩
        · rcases List.mem_append.mp h1 with h2 | h2
          · exact Or.inl h2
          · exact Or.inr ⟨s, List.mem_cons_self s rest, (List.mem_singleton.mp h2)⟩
        · exact Or.inr ⟨s2, List.mem_cons.mpr (Or.inr hs2), he2⟩
    · rw [if_neg hm] at he
      rcases ih acc e he with h1 | ⟨s2, hs2, he2⟩
      · exact Or.inl h1
      · exact Or.inr ⟨s2, List.mem_cons.mpr (Or.inr hs2), he2⟩

/-- C5: every risk finding returned by `identify_risks` carries at most three example
clauses, and every example occurs verbatim (as a stripped sentence) as a substring of the
original, non-lowercased input text. -/
theorem risk_findings_bound (text : Str) (r : RiskFinding) (hr : r ∈ identify_risks text) :
    r.examples.length ≤ 3 ∧ ∀ e ∈ r.examples, e <:+: text := by
  obtain ⟨rule, hrule, hsome⟩ := List.mem_filterMap.mp hr
  by_cases hc : searchPat rule.1 (toLowerS text) = true
  · rw [if_pos hc] at hsome
    have hex : r.examples = find_example_clauses text rule.1 := by
      cases Option.some.inj hsome
      rfl
    constructor
    · rw [hex, find_example_clauses]
      exact fecGo_length _ _ _ (by simp)
    · intro e he
      rw [hex, find_example_clauses] at he
      rcases fecGo_mem _ _ _ e he with h1 | ⟨s, hs, rfl⟩
      · exact absurd h1 (List.not_mem_nil e)
      · have h2 : s <:+: text := by
          have h3 := sentGo_mem_infix text.length none [] text s hs
          rwa [List.nil_append] at h3
        exact (strip_within s).trans h2
  · rw [if_neg hc] at hsome
    exact absurd hsome (Option.noConfusion)

/-- Witness for C5 at a concrete text that triggers the indemnification rule. -/
theorem risk_findings_bound_witness :
    (⟨str "You might be responsible for paying for damages or losses", str "high",
        [str "You shall indemnify the company."]⟩ : RiskFinding) ∈
      identify_risks (str "You shall indemnify the company.") ∧
    (((⟨str "You might be responsible for paying for damages or losses", str "high",
        [str "You shall indemnify the company."]⟩ : RiskFinding).examples.length ≤ 3) ∧
      ∀ e ∈ (⟨str "You might be responsible for paying for damages or losses", str "high",
        [str "You shall indemnify the company."]⟩ : RiskFinding).examples,
        e <:+: str "You shall indemnify the company.") :=
  have hlist : identify_risks (str "You shall indemnify the company.") =
      [⟨str "You might be responsible for paying for damages or losses", str "high",
        [str "You shall indemnify the company."]⟩] := by rfl
  have hm : (⟨str "You might be responsible for paying for damages or losses", str "high",
      [str "You shall indemnify the company."]⟩ : RiskFinding) ∈
      identify_risks (str "You shall indemnify the company.") := by
    rw [hlist]
    exact List.mem_singleton.mpr rfl
  ⟨hm, risk_findings_bound (str "You shall indemnify the company.") _ hm⟩

/-!
### Segmenter lemmas
-/

theorem isHeading_nil : isHeading [] = false := by decide

theorem isHeading_ne_nil {l : Str} (h : isHeading l = true) : l ≠ [] := by
  intro e
  rw [e, isHeading_nil] at h
  exact Bool.false_ne_true h

theorem mem_headingLines {l : Str} {lines : List Str} (h : l ∈ headingLines lines) :
    isHeading l = true := (List.mem_filter.mp h).2

theorem dictInsert_not_mem {m : List (Str × Str)} {k : Str}
    (h : k ∉ m.map Prod.fst) (v : Str) : dictInsert m k v = m ++ [(k, v)] := by
  rw [dictInsert, if_neg]
  intro hc
  obtain ⟨kv, hkv, hbeq⟩ := List.any_eq_true.mp hc
  exact h (List.mem_map.mpr ⟨kv, hkv, beq_iff_eq.mp hbeq⟩)

theorem bodyLines_append (m1 m2 : List (Str × Str)) :
    bodyLines (m1 ++ m2) = bodyLines m1 ++ bodyLines m2 := by
  simp [bodyLines]

theorem bodyLines_single_buf {cur : Str} {buf : List Str} (hne : buf ≠ [])
    (hnl : ∀ b ∈ buf, '\n' ∉ b) :
    bodyLines [(cur, List.intercalate ['\n'] buf)] = buf := by
  simp only [bodyLines, List.map_cons, List.map_nil, List.flatten_cons, List.flatten_nil,
    List.append_nil]
  exact List.splitOn_intercalate buf '\n' hnl hne

theorem contentLines_nil : contentLines [] = [] := rfl

theorem headingLines_nil : headingLines [] = [] := rfl

theorem contentLines_cons_blank {line : Str} (h : (strip line).isEmpty = true)
    (rest : List Str) : contentLines (line :: rest) = contentLines rest := by
  simp [contentLines, List.filter_cons, h]

theorem contentLines_cons_heading {line : Str} (h : isHeading (strip line) = true)
    (rest : List Str) : contentLines (line :: rest) = contentLines rest := by
  simp [contentLines, List.filter_cons, h]

theorem contentLines_cons_body {line : Str} (h1 : (strip line).isEmpty = false)
    (h2 : isHeading (strip line) = false) (rest : List Str) :
    contentLines (line :: rest) = strip line :: contentLines rest := by
  simp [contentLines, List.filter_cons, h1, h2]

theorem headingLines_cons_blank {line : Str} (h : (strip line).isEmpty = true)
    (rest : List Str) : headingLines (line :: rest) = headingLines rest := by
  have he : strip line = [] := List.isEmpty_iff.mp h
  simp [headingLines, List.filter_cons, he, isHeading_nil]

theorem headingLines_cons_heading {line : Str} (h : isHeading (strip line) = true)
    (rest : List Str) : headingLines (line :: rest) = strip line :: headingLines rest := by
  simp [headingLines, List.filter_cons, h]

theorem headingLines_cons_not {line : Str} (h : isHeading (strip line) = false)
    (rest : List Str) : headingLines (line :: rest) = headingLines rest := by
  simp [headingLines, List.filter_cons, h]

theorem segGo_bodyLines :
    ∀ (lines : List Str) (cur : Str) (buf : List Str) (secs : List (Str × Str)),
      cur ≠ [] →
      (∀ b ∈ buf, '\n' ∉ b) →
      (∀ l ∈ lines, '\n' ∉ l) →
      cur ∉ secs.map Prod.fst →
      (headingLines lines).Nodup →
      (∀ h2 ∈ headingLines lines, h2 ∉ secs.map Prod.fst ∧ h2 ≠ cur) →
      bodyLines (segGo cur buf secs lines) = bodyLines secs ++ buf ++ contentLines lines := by
  intro lines
  induction lines with
  | nil =>
    intro cur buf secs hcur hbuf _ hmem _ _
    have hce : cur.isEmpty = false := List.isEmpty_eq_false.mpr hcur
    rw [segGo, contentLines_nil, List.append_nil]
    by_cases hbe : buf.isEmpty = true
    · have hbeq : buf = [] := List.isEmpty_iff.mp hbe
      rw [if_neg (by simp [hbe]), hbeq, List.append_nil]
    · have hbf : buf.isEmpty = false := Bool.eq_false_iff.mpr hbe
      have hbne : buf ≠ [] := List.isEmpty_eq_false.mp hbf
      rw [if_pos (by simp [hbf, hce]), dictInsert_not_mem hmem, bodyLines_append,
        bodyLines_single_buf hbne hbuf]
  | cons line rest ih =>
    intro cur buf secs hcur hbuf hlines hmem hnd hfut
    have hce : cur.isEmpty = false := List.isEmpty_eq_false.mpr hcur
    rw [segGo]
    by_cases hb : (strip line).isEmpty = true
    · -- blank line: skipped
      rw [if_pos hb]
      rw [headingLines_cons_blank hb] at hnd hfut
      rw [contentLines_cons_blank hb]
      exact ih cur buf secs hcur hbuf (fun l hl => hlines l (List.mem_cons_of_mem _ hl))
        hmem hnd hfut
    · have hbf : (strip line).isEmpty = false := Bool.eq_false_iff.mpr hb
      rw [if_neg hb]
      by_cases hh : isHeading (strip line) = true
      · -- heading line: flush and switch sections
        rw [if_pos hh, contentLines_cons_heading hh]
        rw [headingLines_cons_heading hh] at hnd hfut
        have hhm := hfut (strip line) (List.mem_cons_self _ _)
        have hndr : (headingLines rest).Nodup := hnd.of_cons
        have hnotin : strip line ∉ headingLines rest := (List.nodup_cons.mp hnd).1
        have hlr : ∀ l ∈ rest, '\n' ∉ l := fun l hl => hlines l (List.mem_cons_of_mem _ hl)
        have hsne : strip line ≠ [] := isHeading_ne_nil hh
        by_cases hbe : buf.isEmpty = true
        · -- empty buffer: no flush
          have hbeq : buf = [] := List.isEmpty_iff.mp hbe
          rw [if_neg (by simp [hbe])]
          have h1 := ih (strip line) [] secs hsne (by simp) hlr hhm.1 hndr
            (fun h3 hh3 => by
              have h4 := hfut h3 (List.mem_cons_of_mem _ hh3)
              exact ⟨h4.1, fun e => hnotin (e ▸ hh3)⟩)
          rw [h1, hbeq]
        · -- non-empty buffer: a flush happens
          have hbf2 : buf.isEmpty = false := Bool.eq_false_iff.mpr hbe
          have hbne : buf ≠ [] := List.isEmpty_eq_false.mp hbf2
          rw [if_pos (by simp [hbf2, hce])]
          rw [dictInsert_not_mem hmem]
          have h1 := ih (strip line) [] (secs ++ [(cur, List.intercalate ['\n'] buf)]) hsne
            (by simp)
            hlr
            (by
              rw [List.map_append, List.mem_append]
              rintro (h2 | h2)
              · exact hhm.1 h2
              · simp only [List.map_cons, List.map_nil, List.mem_singleton] at h2
                exact hhm.2 h2)
            hndr
            (fun h3 hh3 => by
              have h4 := hfut h3 (List.mem_cons_of_mem _ hh3)
              refine ⟨?_, fun e => hnotin (e ▸ hh3)⟩
              rw [List.map_append, List.mem_append]
              rintro (h5 | h5)
              · exact h4.1 h5
              · simp only [List.map_cons, List.map_nil, List.mem_singleton] at h5
                exact h4.2 h5)
          rw [h1, bodyLines_append, bodyLines_single_buf hbne hbuf]
          simp [List.append_assoc]
      · -- body line: buffer it
        have hh2 : isHeading (strip line) = false := Bool.eq_false_iff.mpr hh
        rw [if_neg hh, contentLines_cons_body hbf hh2]
        rw [headingLines_cons_not hh2] at hnd hfut
        have hnl : '\n' ∉ strip line := fun hc => hlines line (List.mem_cons_self _ _)
          (mem_of_mem_strip hc)
        have h1 := ih cur (buf ++ [strip line]) secs hcur
          (fun b hbm => by
            rcases List.mem_append.mp hbm with h2 | h2
            · exact hbuf b h2
            · rw [List.mem_singleton.mp h2]; exact hnl)
          (fun l hl => hlines l (List.mem_cons_of_mem _ hl)) hmem hnd hfut
        rw [h1]
        simp [List.append_assoc]

/-- C2 (counterexample): the claim fails as stated. In the document
"Parties\nalpha\nParties\nbeta" the two occurrences of the heading "Parties" share one
dict key, so the body "alpha" flushed for the first occurrence is overwritten by "beta"
and is missing from the SectionMap. -/
theorem segmenter_completeness_cex :
    bodyLines (identify_key_sections (str "Parties\nalpha\nParties\nbeta")) ≠
      contentLines ((str "Parties\nalpha\nParties\nbeta").splitOn '\n') := by decide

/-- C2 (amended): provided no two detected heading lines of the text repeat verbatim, the
concatenation, in order, of the body lines stored in the SectionMap equals the sequence
of the input's non-blank, non-heading lines (in stripped form, as the segmenter stores
them) in their original order — no line lost and no line duplicated. -/
theorem segmenter_completeness_nodup (text : Str)
    (hnd : (headingLines (text.splitOn '\n')).Nodup) :
    bodyLines (identify_key_sections text) = contentLines (text.splitOn '\n') := by
  rw [identify_key_sections]
  have h := segGo_bodyLines (text.splitOn '\n') (str "Introduction") [] []
    (by decide) (by simp) (fun l hl hc => splitOn_pieces '\n' text l hl hc) (by simp) hnd
    (fun h2 hh2 => ⟨by simp, fun e => by
      have h3 := mem_headingLines hh2
      rw [e] at h3
      exact absurd h3 (by decide)⟩)
  simpa using h

/-- Witness for the amended C2 at a concrete two-heading document. -/
theorem segmenter_completeness_nodup_witness :
    (headingLines ((str "Payment\nYou must pay rent monthly.\nGoverning Law\nDelaware law applies.").splitOn '\n')).Nodup ∧
    bodyLines (identify_key_sections
        (str "Payment\nYou must pay rent monthly.\nGoverning Law\nDelaware law applies.")) =
      contentLines ((str "Payment\nYou must pay rent monthly.\nGoverning Law\nDelaware law applies.").splitOn '\n') :=
  ⟨by decide, segmenter_completeness_nodup _ (by decide)⟩

theorem segGo_no_heading :
    ∀ (lines : List Str) (cur : Str) (buf : List Str) (secs : List (Str × Str)),
      cur ≠ [] →
      (∀ l ∈ lines, isHeading (strip l) = false) →
      segGo cur buf secs lines =
        if buf ++ contentLines lines = [] then secs
        else dictInsert secs cur (List.intercalate ['\n'] (buf ++ contentLines lines)) := by
  intro lines
  induction lines with
  | nil =>
    intro cur buf secs hcur _
    have hce : cur.isEmpty = false := List.isEmpty_eq_false.mpr hcur
    rw [segGo, contentLines_nil, List.append_nil]
    by_cases hbe : buf.isEmpty = true
    · rw [if_neg (by simp [hbe]), if_pos (List.isEmpty_iff.mp hbe)]
    · have hbf : buf.isEmpty = false := Bool.eq_false_iff.mpr hbe
      rw [if_pos (by simp [hbf, hce]), if_neg (List.isEmpty_eq_false.mp hbf)]
  | cons line rest ih =>
    intro cur buf secs hcur hnoh
    rw [segGo]
    have hh : isHeading (strip line) = false := hnoh line (List.mem_cons_self _ _)
    by_cases hb : (strip line).isEmpty = true
    · rw [if_pos hb, contentLines_cons_blank hb]
      exact ih cur buf secs hcur (fun l hl => hnoh l (List.mem_cons_of_mem _ hl))
    · have hbf : (strip line).isEmpty = false := Bool.eq_false_iff.mpr hb
      rw [if_neg hb, if_neg (by simp [hh]), contentLines_cons_body hbf hh]
      rw [ih cur (buf ++ [strip line]) secs hcur
        (fun l hl => hnoh l (List.mem_cons_of_mem _ hl))]
      simp [List.append_assoc]

theorem segGo_nil_empty_buf (cur : Str) (secs : List (Str × Str)) :
    segGo cur [] secs [] = secs := by
  rw [segGo]
  simp

theorem segGo_append_heading :
    ∀ (lines : List Str) (cur : Str) (buf : List Str) (secs : List (Str × Str)) (hl : Str),
      isHeading (strip hl) = true →
      segGo cur buf secs (lines ++ [hl]) = segGo cur buf secs lines := by
  intro lines
  induction lines with
  | nil =>
    intro cur buf secs hl hh
    have hse : (strip hl).isEmpty = false := List.isEmpty_eq_false.mpr (isHeading_ne_nil hh)
    rw [List.nil_append]
    conv_lhs => rw [segGo]
    rw [if_neg (by simp [hse]), if_pos hh, segGo_nil_empty_buf]
    conv_rhs => rw [segGo]
  | cons line rest ih =>
    intro cur buf secs hl hh
    rw [List.cons_append]
    simp only [segGo]
    by_cases hb : (strip line).isEmpty = true
    · simp only [hb, if_true]
      exact ih cur buf secs hl hh
    · simp only [Bool.eq_false_iff.mpr hb]
      by_cases hh2 : isHeading (strip line) = true
      · simp only [hh2, if_true, if_false]
        exact ih (strip line) []
          (if (!buf.isEmpty && !cur.isEmpty) = true then
            dictInsert secs cur (List.intercalate ['\n'] buf) else secs) hl hh
      · simp only [Bool.eq_false_iff.mpr hh2, if_false]
        exact ih cur (buf ++ [strip line]) secs hl hh

/-- C6 (counterexample): the claim fails as stated. The empty document has no line
detected as a heading, yet its SectionMap has zero entries rather than exactly one; and
for the no-heading document " a \n" the single "Introduction" entry holds the stripped
line "a", not the whole text " a \n". -/
theorem sectioner_edge_cex :
    identify_key_sections (str "") = [] ∧
    identify_key_sections (str " a \n") = [(str "Introduction", str "a")] ∧
    str "a" ≠ str " a \n" := by
  refine ⟨by decide, by decide, by decide⟩

/-- C6 (amended): a document with at least one non-blank line and no line detected as a
heading yields a SectionMap with exactly one entry, keyed "Introduction", whose body is
the newline-join of the document's stripped non-blank lines; and a document whose final
line is a detected heading yields exactly the SectionMap of the document without that
trailing heading line — the trailing heading contributes no entry (the buffer is empty at
its flush). -/
theorem sectioner_edge_amended :
    (∀ text : Str,
        (∀ l ∈ text.splitOn '\n', isHeading (strip l) = false) →
        contentLines (text.splitOn '\n') ≠ [] →
        identify_key_sections text =
          [(str "Introduction",
            List.intercalate ['\n'] (contentLines (text.splitOn '\n')))]) ∧
    (∀ (t hl : Str), '\n' ∉ hl → isHeading (strip hl) = true →
        identify_key_sections (t ++ '\n' :: hl) = identify_key_sections t) := by
  constructor
  · intro text hnoh hne
    rw [identify_key_sections,
      segGo_no_heading (text.splitOn '\n') (str "Introduction") [] [] (by decide) hnoh,
      if_neg (by simpa using hne)]
    rfl
  · intro t hl hnl hh
    rw [identify_key_sections, identify_key_sections, splitOn_append_last hnl,
      segGo_append_heading (t.splitOn '\n') (str "Introduction") [] [] hl hh]

/-- Witness for the amended C6 at the concrete documents "hello\nworld" (no headings) and
"alpha\nSignatures" (trailing heading). -/
theorem sectioner_edge_amended_witness :
    (∀ l ∈ (str "hello\nworld").splitOn '\n', isHeading (strip l) = false) ∧
    contentLines ((str "hello\nworld").splitOn '\n') ≠ [] ∧
    identify_key_sections (str "hello\nworld") =
      [(str "Introduction",
        List.intercalate ['\n'] (contentLines ((str "hello\nworld").splitOn '\n')))] ∧
    identify_key_sections (str "alpha" ++ '\n' :: str "Signatures") =
      identify_key_sections (str "alpha") :=
  ⟨by decide, by decide,
   sectioner_edge_amended.1 (str "hello\nworld") (by decide) (by decide),
   sectioner_edge_amended.2 (str "alpha") (str "Signatures") (by decide) (by decide)⟩

/-- C7: SectionMap keys are the (stripped) heading lines exactly as found in the text,
not lowercased or otherwise normalized, and when a detected heading repeats verbatim the
body flushed for the later occurrence overwrites the body stored for the earlier
occurrence under that same key: a document heading/body1/heading/body2 maps the heading
key to body2 only. -/
theorem duplicate_heading_overwrite (hl b1 b2 : Str)
    (hh : isHeading (strip hl) = true)
    (hn2 : '\n' ∉ hl) (hnb1 : '\n' ∉ b1) (hnb2 : '\n' ∉ b2)
    (hb1e : (strip b1).isEmpty = false) (hb1h : isHeading (strip b1) = false)
    (hb2e : (strip b2).isEmpty = false) (hb2h : isHeading (strip b2) = false) :
    identify_key_sections (List.intercalate ['\n'] [hl, b1, hl, b2]) =
      [(strip hl, strip b2)] := by
  have hse : (strip hl).isEmpty = false := List.isEmpty_eq_false.mpr (isHeading_ne_nil hh)
  have hlines : (List.intercalate ['\n'] [hl, b1, hl, b2]).splitOn '\n' = [hl, b1, hl, b2] :=
    List.splitOn_intercalate _ '\n' (by intro l hlm; fin_cases hlm <;> assumption) (by simp)
  rw [identify_key_sections, hlines]
  simp only [segGo, hse, hh, hb1e, hb1h, hb2e, hb2h, Bool.false_eq_true, if_false, if_true,
    List.isEmpty_nil, List.isEmpty_cons, Bool.not_true, Bool.not_false, Bool.false_and,
    Bool.and_self, Bool.true_and, Bool.and_true, List.nil_append]
  rw [dictInsert_not_mem (by simp) (List.intercalate ['\n'] [strip b1])]
  simp only [List.nil_append, dictInsert, List.any_cons, List.any_nil, beq_self_eq_true,
    Bool.true_or, if_true, List.map_cons, List.map_nil, intercalate_single]

/-- Witness for C7 at the concrete document "Parties\nalpha\nParties\nbeta". -/
theorem duplicate_heading_overwrite_witness :
    isHeading (strip (str "Parties")) = true ∧
    identify_key_sections
        (List.intercalate ['\n'] [str "Parties", str "alpha", str "Parties", str "beta"]) =
      [(strip (str "Parties"), strip (str "beta"))] :=
  ⟨by decide,
   duplicate_heading_overwrite (str "Parties") (str "alpha") (str "beta") (by decide)
     (by decide) (by decide) (by decide) (by decide) (by decide) (by decide) (by decide)⟩

/-!
### Claim theorems: error handling (C3), rewriter idempotence (C4), summary checklist (C8)
-/

/-- C3: a declared extension outside pdf/docx/txt makes `process_document` return a
failure result whose message names the offending (lowercased) extension, and more
generally any extraction error makes it return a failure result carrying exactly the
exception's message — the failure constructor has no analysis fields at all. -/
theorem process_document_failure (f : UploadedFile) :
    (toLowerS ((f.name.splitOn '.').getLastD []) ∉ [str "pdf", str "docx", str "txt"] →
      process_document f =
        AnalysisResult.fail
          (str "Unsupported file type: " ++ toLowerS ((f.name.splitOn '.').getLastD []))) ∧
    (∀ e : Str, extract_text_from_file f = Except.error e →
      process_document f = AnalysisResult.fail e) := by
  have key : ∀ e : Str, extract_text_from_file f = Except.error e →
      process_document f = AnalysisResult.fail e := by
    intro e he
    rw [process_document, he]
  refine ⟨fun hft => key _ ?_, key⟩
  rw [extract_text_from_file]
  rw [if_neg (by
    simp only [beq_iff_eq]
    exact fun e2 => hft (by rw [e2]; exact List.mem_cons_self _ _))]
  rw [if_neg (by
    simp only [beq_iff_eq]
    exact fun e2 => hft (by rw [e2]; simp))]
  rw [if_neg (by
    simp only [beq_iff_eq]
    exact fun e2 => hft (by rw [e2]; simp))]

/-- Witness for C3 at a concrete upload named "contract.xyz" whose extraction oracles all
succeed, so the failure comes from the extension dispatch alone. -/
theorem process_document_failure_witness :
    toLowerS ((((⟨str "contract.xyz", Except.ok [], Except.ok [],
        Except.ok []⟩ : UploadedFile)).name.splitOn '.').getLastD [])
      ∉ [str "pdf", str "docx", str "txt"] ∧
    process_document (⟨str "contract.xyz", Except.ok [], Except.ok [],
        Except.ok []⟩ : UploadedFile) =
      AnalysisResult.fail (str "Unsupported file type: " ++
        toLowerS ((((⟨str "contract.xyz", Except.ok [], Except.ok [],
          Except.ok []⟩ : UploadedFile)).name.splitOn '.').getLastD [])) :=
  ⟨by decide,
   (process_document_failure
     (⟨str "contract.xyz", Except.ok [], Except.ok [], Except.ok []⟩ : UploadedFile)).1
     (by decide)⟩

set_option maxRecDepth 4000 in
/-- C4 (counterexample): the claim fails as stated. Running the clause rewriter on its own
output changes an annotation that was applied exactly once: on input "hereinafter" the
second run annotates the already-annotated term again. -/
theorem rewriter_not_idempotent_cex :
    simplify_legal_text (simplify_legal_text (str "hereinafter")) ≠
      simplify_legal_text (str "hereinafter") := by decide

set_option maxRecDepth 4000 in
/-- C4 (amended): the clause rewriter is not idempotent with respect to jargon
annotation: an already-annotated term is matched and annotated a second time when the
rewriter runs on its own output, wrapping the existing annotation in another one, as the
concrete input "hereinafter" shows. -/
theorem rewriter_double_annotation :
    simplify_legal_text (str "hereinafter") =
      str "<span class=\"legal-term\">hereinafter</span> (from now on)" ∧
    simplify_legal_text (simplify_legal_text (str "hereinafter")) =
      str "<span class=\"legal-term\"><span class=\"legal-term\">hereinafter</span> (from now on)</span> (from now on)" := by
  refine ⟨by decide, by decide⟩

set_option maxRecDepth 4000 in
/-- C8 (counterexample): the claim fails as stated. For the fallback type
"Legal Document" the generated summary still contains the checklist header
"Key things to pay attention to", because `generate_summary` appends the header
unconditionally before choosing the per-type bullets. -/
theorem summary_checklist_cex :
    containsS (generate_summary (str "Legal Document") [])
      (str "Key things to pay attention to") = true := by decide

/-- C8 (amended): only the three types with a dedicated checklist (Rental Agreement,
Loan Agreement, Terms of Service) get checklist bullets; for every other document type,
including the fallback "Legal Document", the summary still ends with the fixed checklist
header line but no checklist bullets follow it. -/
theorem summary_checklist_amended (dt : Str) (secs : List (Str × Str))
    (h1 : dt ≠ str "Rental Agreement") (h2 : dt ≠ str "Loan Agreement")
    (h3 : dt ≠ str "Terms of Service") :
    generate_summary dt secs = summaryBase dt secs ++ checklistHeader := by
  simp only [generate_summary, beq_eq_false_iff_ne.mpr h1, beq_eq_false_iff_ne.mpr h2,
    beq_eq_false_iff_ne.mpr h3, Bool.false_eq_true, if_false]

/-- Witness for the amended C8 at the fallback type with an empty SectionMap. -/
theorem summary_checklist_amended_witness :
    str "Legal Document" ≠ str "Rental Agreement" ∧
    str "Legal Document" ≠ str "Loan Agreement" ∧
    str "Legal Document" ≠ str "Terms of Service" ∧
    generate_summary (str "Legal Document") [] =
      summaryBase (str "Legal Document") [] ++ checklistHeader :=
  ⟨by decide, by decide, by decide,
   summary_checklist_amended (str "Legal Document") [] (by decide) (by decide) (by decide)⟩
